import Mathlib

/-!
# fullon.shard: database manager sessions, read-only mode, revisions, shard objects

A shallow embedding of

* `libraries/chain/include/eosio/chain/shard_object.hpp`
  (`shard_object`, `shard_change_object`, `registered_shard`), and
* `libraries/chain/include/eosio/chain/database_manager.hpp`
  (`database_manager::session`, `set_revision`, `set_read_only_mode`,
  `unset_read_only_mode`, `revision`, `shard_revision`).

Names (`shard_name`, `account_name`, `db_name`) are 64-bit name values, ids and
timestamps are integers; all of them are compared by value only, so they are
embedded as `Nat`.
-/

namespace eosio.chain

/-! ## shard_object.hpp -/

/-- The class `shard_object` (shard_object.hpp, lines 15-39): its data members. -/
structure shard_object where
  id : Nat
  name : Nat
  version : Nat
  shard_type : Nat
  owner : Nat
  enabled : Bool
  opts : Nat
  created_time : Nat
  updated_time : Nat
deriving DecidableEq, Repr

/-- The copy assignment `shard_object::operator=` (lines 28-38): `this` is the
    object assigned to, `a` the right-hand side. Eight members are assigned;
    there is no assignment to `opts`. -/
def shard_object.assign (this a : shard_object) : shard_object :=
  { this with
    id := a.id
    name := a.name
    version := a.version
    shard_type := a.shard_type
    owner := a.owner
    enabled := a.enabled
    created_time := a.created_time
    updated_time := a.updated_time }

/-- The class `shard_change_object` (lines 69-86): its data members. -/
structure shard_change_object where
  id : Nat
  name : Nat
  version : Nat
  shard_type : Nat
  owner : Nat
  enabled : Bool
  opts : Nat
  block_num : Nat
deriving DecidableEq, Repr

/-- The struct `registered_shard` (lines 98-111): its data members. -/
structure registered_shard where
  name : Nat
  shard_type : Nat
  owner : Nat
  enabled : Bool
  opts : Nat
deriving DecidableEq, Repr

/-- The members of `Object` that the template `registered_shard::has_changed`
    reads: `obj.owner`, `obj.enabled`, `obj.opts`. -/
class ShardFields (Object : Type) where
  owner : Object → Nat
  enabled : Object → Bool
  opts : Object → Nat

instance : ShardFields shard_object := ⟨shard_object.owner, shard_object.enabled, shard_object.opts⟩

instance : ShardFields shard_change_object :=
  ⟨shard_change_object.owner, shard_change_object.enabled, shard_change_object.opts⟩

/-- The template `registered_shard::has_changed` (lines 105-110). -/
def registered_shard.has_changed {Object : Type} [ShardFields Object]
    (r : registered_shard) (obj : Object) : Bool :=
  r.owner != ShardFields.owner obj
    || r.enabled != ShardFields.enabled obj
    || r.opts != ShardFields.opts obj

/-! ## database_manager.hpp: `database_manager::session` -/

/-- The member functions of a per-store session handle (`database::session`)
    that `database_manager::session` calls: `i->push()`, `i->squash()`,
    `i->undo()`. -/
inductive session_op where
  | push
  | squash
  | undo
deriving DecidableEq, Repr

/-- The store primitive as seen from `database_manager::session`: the call
    `i->op()` through the handle `i`, made when the stores are in state `w`,
    leaves the stores in a new state and either returns (`none`) or throws
    (`some e`). `chainbase` is not part of these sources, so the primitive is a
    parameter of the embedding. -/
abbrev store_call (H W E : Type) := session_op → H → W → W × Option E

/-- The struct `database_manager::session` (lines 42-76): its only data member,
    `std::vector<std::unique_ptr<database::session>> _db_sessions`. -/
structure session (H : Type) where
  _db_sessions : List H
deriving DecidableEq, Repr

/-- What a member function of `session` leaves behind: the session object, the
    state of the stores, and the exception that left the function, if any. -/
structure session_result (H W E : Type) where
  self : session H
  world : W
  thrown : Option E
deriving DecidableEq, Repr

/-- The loop `for( auto& i : _db_sessions ) i->op();` (lines 55, 61, 67): the
    handles are visited front to back; an exception thrown by a call leaves the
    loop at once. -/
def for_each_db_session {H W E : Type} (call : store_call H W E) (op : session_op) :
    List H → W → W × Option E
  | [], w => (w, none)
  | i :: rest, w =>
    match call op i w with
    | (w1, none) => for_each_db_session call op rest w1
    | (w1, some e) => (w1, some e)

/-- The common body of `push`, `squash` and `undo`: the loop, then
    `_db_sessions.clear();`. When the loop throws, `clear()` is not reached and
    the member keeps its handles. -/
def session.loop_then_clear {H W E : Type} (call : store_call H W E) (op : session_op)
    (s : session H) (w : W) : session_result H W E :=
  match for_each_db_session call op s._db_sessions w with
  | (w1, none) => ⟨⟨[]⟩, w1, none⟩
  | (w1, some e) => ⟨s, w1, some e⟩

/-- The function `session::push` (lines 53-57). -/
def session.push {H W E : Type} (call : store_call H W E) (s : session H) (w : W) :
    session_result H W E :=
  s.loop_then_clear call session_op.push w

/-- The function `session::squash` (lines 59-63). -/
def session.squash {H W E : Type} (call : store_call H W E) (s : session H) (w : W) :
    session_result H W E :=
  s.loop_then_clear call session_op.squash w

/-- The function `session::undo` (lines 65-69). -/
def session.undo {H W E : Type} (call : store_call H W E) (s : session H) (w : W) :
    session_result H W E :=
  s.loop_then_clear call session_op.undo w

/-- The destructor `session::~session` (lines 49-51): it calls `undo()`. The
    session object is gone afterwards, so what is left is the state of the
    stores and the exception that escaped `undo()`, if any. -/
def session.destroy {H W E : Type} (call : store_call H W E) (s : session H) (w : W) :
    W × Option E :=
  let r := s.undo call w
  (r.world, r.thrown)

/-- Selects one of the three finalize functions of `session` by name. -/
def session.finalize {H W E : Type} (call : store_call H W E) :
    session_op → session H → W → session_result H W E
  | session_op.push => session.push call
  | session_op.squash => session.squash call
  | session_op.undo => session.undo call

/-- A caller making the finalize calls `gs` on a session one after the other;
    an exception thrown by one of them ends the sequence. -/
def session.finalize_each {H W E : Type} (call : store_call H W E) :
    List session_op → session H → W → session_result H W E
  | [], s, w => ⟨s, w, none⟩
  | g :: gs, s, w =>
    match s.finalize call g w with
    | ⟨s1, w1, none⟩ => session.finalize_each call gs s1 w1
    | ⟨s1, w1, some e⟩ => ⟨s1, w1, some e⟩

/-- An instrumented store primitive: the state of the stores is the list of the
    calls made so far, each call is appended to it, and the call `op` through
    handle `h` throws exactly when `fails op h`. -/
def log_call {H : Type} (fails : session_op → H → Bool) :
    store_call H (List (session_op × H)) Unit :=
  fun op h w => (w ++ [(op, h)], if fails op h then some () else none)

/-- The instrumented primitive on which no call throws. -/
def never_fails {H : Type} : session_op → H → Bool := fun _ _ => false

/-- The instrumented primitive on which exactly the call `op` through handle
    `h` throws. -/
def fails_at {H : Type} [DecidableEq H] (op : session_op) (h : H) : session_op → H → Bool :=
  fun op1 h1 => decide (op1 = op ∧ h1 = h)

/-! ## database_manager.hpp: the manager -/

/-- Modelled from the spec: the versioned store `chainbase::database`, which is
    not part of these sources. The spec describes it as a store with a revision
    counter and "a read-only toggle that rejects mutation", with the interface
    `Store.{revision, set_revision, set_read_only_mode, unset_read_only_mode}()`.
    Only the two attributes these four functions touch are kept. -/
structure database where
  _revision : Int
  _read_only_mode : Bool
deriving DecidableEq, Repr

/-- Modelled from the spec: `Store.revision()`. -/
def database.revision (d : database) : Int := d._revision

/-- Modelled from the spec: `Store.set_read_only_mode()` switches the toggle on. -/
def database.set_read_only_mode (d : database) : database :=
  { d with _read_only_mode := true }

/-- Modelled from the spec: `Store.unset_read_only_mode()` switches the toggle off. -/
def database.unset_read_only_mode (d : database) : database :=
  { d with _read_only_mode := false }

/-- Modelled from the spec: `Store.set_revision(value)`. A store in read-only
    mode rejects the mutation; the revision is read back as an `int64_t`, so a
    value above `2^63 - 1` is rejected as well. A rejected call leaves the store
    as it was. -/
def database.set_revision (revision : Nat) (d : database) : Except String database :=
  if d._read_only_mode then
    Except.error "attempting to set revision in read-only mode"
  else if revision > 2 ^ 63 - 1 then
    Except.error "revision to set is too high"
  else
    Except.ok { d with _revision := (revision : Int) }

/-- The class `database_manager` (lines 10-167): the data members that
    `revision`, `shard_revision`, `set_revision`, `set_read_only_mode` and
    `unset_read_only_mode` read or write. `_shard_db_map` is a
    `std::map<db_name, database>`; the list holds its entries in iteration
    order. -/
structure database_manager where
  _shared_db : database
  _main_db : database
  _shard_db_map : List (Nat × database)
  _read_only : Bool
  _read_only_mode : Bool
deriving DecidableEq, Repr

/-- What a member function of `database_manager` leaves behind: the manager and
    the exception that left the function, if any. -/
structure manager_result where
  self : database_manager
  thrown : Option String
deriving DecidableEq, Repr

/-- The function `database_manager::revision` (lines 80-82). -/
def database_manager.revision (m : database_manager) : Int :=
  m._main_db.revision

/-- The function `database_manager::shard_revision` (lines 84-86):
    `_shard_db_map.at(shard_name)` throws when the name is not a key, which is
    the result `none`. -/
def database_manager.shard_revision (m : database_manager) (shard_name : Nat) : Option Int :=
  (m._shard_db_map.lookup shard_name).map database.revision

/-- The loop `for ( auto& db : _shard_db_map ) db.second.set_revision( revision );`
    (lines 102-104): entries are visited in order; when a call throws, the
    entries before it are updated and the rest is left as it was. -/
def set_revision_shards (revision : Nat) :
    List (Nat × database) → List (Nat × database) × Option String
  | [] => ([], none)
  | db :: rest =>
    match db.2.set_revision revision with
    | Except.error e => (db :: rest, some e)
    | Except.ok d =>
      let r := set_revision_shards revision rest
      ((db.1, d) :: r.1, r.2)

/-- The function `database_manager::set_revision` (lines 94-105). -/
def database_manager.set_revision (revision : Nat) (m : database_manager) : manager_result :=
  if m._read_only_mode then
    ⟨m, some "attempting to set revision in read-only mode"⟩
  else
    match m._shared_db.set_revision revision with
    | Except.error e => ⟨m, some e⟩
    | Except.ok shared =>
      let m1 := { m with _shared_db := shared }
      match m1._main_db.set_revision revision with
      | Except.error e => ⟨m1, some e⟩
      | Except.ok main =>
        let m2 := { m1 with _main_db := main }
        let r := set_revision_shards revision m2._shard_db_map
        ⟨{ m2 with _shard_db_map := r.1 }, r.2⟩

/-- The function `database_manager::set_read_only_mode` (lines 124-132). The
    loop over `_shard_db_map` calls `db.second.unset_read_only_mode()`. -/
def database_manager.set_read_only_mode (m : database_manager) : database_manager :=
  { m with
    _read_only_mode := true
    _shared_db := m._shared_db.set_read_only_mode
    _main_db := m._main_db.set_read_only_mode
    _shard_db_map := m._shard_db_map.map (fun db => (db.1, db.2.unset_read_only_mode)) }

/-- The function `database_manager::unset_read_only_mode` (lines 134-143). -/
def database_manager.unset_read_only_mode (m : database_manager) : manager_result :=
  if m._read_only then
    ⟨m, some "attempting to unset read_only_mode while database was opened as read only"⟩
  else
    ⟨{ m with
       _read_only_mode := false
       _shared_db := m._shared_db.unset_read_only_mode
       _main_db := m._main_db.unset_read_only_mode
       _shard_db_map := m._shard_db_map.map (fun db => (db.1, db.2.unset_read_only_mode)) },
     none⟩

/-- The three mutating calls on a manager that the read-only invariant is about. -/
inductive manager_op where
  | set_read_only_mode
  | unset_read_only_mode
  | set_revision (revision : Nat)
deriving DecidableEq, Repr

/-- One step: the manager as the call leaves it, whether it returned or threw. -/
def database_manager.step (m : database_manager) : manager_op → database_manager
  | manager_op.set_read_only_mode => m.set_read_only_mode
  | manager_op.unset_read_only_mode => m.unset_read_only_mode.self
  | manager_op.set_revision revision => (m.set_revision revision).self

/-- A finite sequence of steps, first to last. -/
def database_manager.run (m : database_manager) (ops : List manager_op) : database_manager :=
  ops.foldl database_manager.step m

/-- Every store of the manager: shared, main, then the shard stores. -/
def database_manager.stores (m : database_manager) : List database :=
  m._shared_db :: m._main_db :: m._shard_db_map.map Prod.snd

/-! ## Theorems: shard objects -/

/-- C9: for every `registered_shard` r and every persisted object o (a
    `shard_object` or a `shard_change_object`), `r.has_changed(o)` is true if and
    only if the owners differ, or the enabled flags differ, or the opts differ.
    No other member of r or o occurs in the condition. -/
theorem has_changed_iff_owner_enabled_opts (r : registered_shard) :
    (∀ o : shard_object,
        r.has_changed o = true ↔
          (r.owner ≠ o.owner ∨ r.enabled ≠ o.enabled ∨ r.opts ≠ o.opts)) ∧
    (∀ o : shard_change_object,
        r.has_changed o = true ↔
          (r.owner ≠ o.owner ∨ r.enabled ≠ o.enabled ∨ r.opts ≠ o.opts)) := by
  constructor <;> intro o <;>
    simp [registered_shard.has_changed, ShardFields.owner, ShardFields.enabled,
      ShardFields.opts, or_assoc]

/-- C10: after the copy assignment `a = b` of shard objects, the members id,
    name, version, shard_type, owner, enabled, created_time and updated_time of
    a are those of b and `a.opts` is what it was before; so `has_changed` of the
    assigned object compares opts with the old `a.opts`, and some
    `registered_shard` tells the assigned object from b exactly when the old
    `a.opts` differs from `b.opts`. -/
theorem assign_copies_all_but_opts (a b : shard_object) :
    (a.assign b).id = b.id ∧ (a.assign b).name = b.name ∧
    (a.assign b).version = b.version ∧ (a.assign b).shard_type = b.shard_type ∧
    (a.assign b).owner = b.owner ∧ (a.assign b).enabled = b.enabled ∧
    (a.assign b).created_time = b.created_time ∧
    (a.assign b).updated_time = b.updated_time ∧
    (a.assign b).opts = a.opts ∧
    (∀ r : registered_shard,
        r.has_changed (a.assign b) =
          (r.owner != b.owner || r.enabled != b.enabled || r.opts != a.opts)) ∧
    ((∃ r : registered_shard, r.has_changed (a.assign b) ≠ r.has_changed b) ↔
        a.opts ≠ b.opts) := by
  refine ⟨rfl, rfl, rfl, rfl, rfl, rfl, rfl, rfl, rfl, fun r => rfl, ?_, ?_⟩
  · rintro ⟨r, hr⟩ hopts
    apply hr
    simp [registered_shard.has_changed, ShardFields.owner, ShardFields.enabled,
      ShardFields.opts, shard_object.assign, hopts]
  · intro hopts
    refine ⟨⟨b.name, b.shard_type, b.owner, b.enabled, b.opts⟩, ?_⟩
    have hne : b.opts ≠ a.opts := fun h => hopts h.symm
    simp [registered_shard.has_changed, ShardFields.owner, ShardFields.enabled,
      ShardFields.opts, shard_object.assign, hne]

/-! ## Theorems: sessions -/

section session_lemmas

variable {H W E : Type}

/-- A loop that returns has applied the per-store call through every handle,
    front to back, and nothing else. -/
theorem for_each_returns_fold (call : store_call H W E) (op : session_op) :
    ∀ (hs : List H) (w : W), (for_each_db_session call op hs w).2 = none →
      (for_each_db_session call op hs w).1 = hs.foldl (fun w1 h => (call op h w1).1) w
  | [], _, _ => rfl
  | h :: rest, w, hok => by
    rcases hc : call op h w with ⟨w1, _ | e⟩
    · simp only [for_each_db_session, hc] at hok ⊢
      simpa [List.foldl, hc] using for_each_returns_fold call op rest w1 hok
    · simp [for_each_db_session, hc] at hok

/-- The loop over `pre ++ rest` runs the loop over `pre` and, when that returns,
    the loop over `rest`. -/
theorem for_each_append (call : store_call H W E) (op : session_op) (rest : List H) :
    ∀ (pre : List H) (w : W),
      for_each_db_session call op (pre ++ rest) w =
        match for_each_db_session call op pre w with
        | (w1, none) => for_each_db_session call op rest w1
        | (w1, some e) => (w1, some e)
  | [], _ => rfl
  | h :: pre, w => by
    rcases hc : call op h w with ⟨w1, _ | e⟩
    · simp only [List.cons_append, for_each_db_session, hc]
      exact for_each_append call op rest pre w1
    · simp [for_each_db_session, hc]

/-- On the instrumented primitive, a loop in which no call throws logs one call
    per handle, in handle order. -/
theorem for_each_log_ok (fails : session_op → H → Bool) (op : session_op) :
    ∀ (hs : List H) (t : List (session_op × H)), (∀ h ∈ hs, fails op h = false) →
      for_each_db_session (log_call fails) op hs t = (t ++ hs.map (fun h => (op, h)), none)
  | [], t, _ => by simp [for_each_db_session]
  | h :: rest, t, hok => by
    have hh : fails op h = false := hok h (List.mem_cons_self h rest)
    have hrest : ∀ x ∈ rest, fails op x = false :=
      fun x hx => hok x (List.mem_cons_of_mem h hx)
    simp [for_each_db_session, log_call, hh]
    simpa [log_call] using for_each_log_ok fails op rest (t ++ [(op, h)]) hrest

/-- On the instrumented primitive, a loop that returns met no throwing call. -/
theorem for_each_log_returns (fails : session_op → H → Bool) (op : session_op) :
    ∀ (hs : List H) (t : List (session_op × H)),
      (for_each_db_session (log_call fails) op hs t).2 = none → ∀ h ∈ hs, fails op h = false
  | [], _, _ => by simp
  | h :: rest, t, hok => by
    cases hh : fails op h
    · simp only [for_each_db_session, log_call, hh] at hok
      have ih := for_each_log_returns fails op rest (t ++ [(op, h)]) (by simpa [log_call] using hok)
      intro x hx
      rcases List.mem_cons.mp hx with rfl | hx
      · exact hh
      · exact ih x hx
    · simp [for_each_db_session, log_call, hh] at hok

/-- The shape of `loop_then_clear` when the loop returns. -/
theorem loop_then_clear_of_returns (call : store_call H W E) (op : session_op)
    (s : session H) (w : W) (hok : (s.loop_then_clear call op w).thrown = none) :
    s.loop_then_clear call op w =
      ⟨⟨[]⟩, (for_each_db_session call op s._db_sessions w).1, none⟩ ∧
    (for_each_db_session call op s._db_sessions w).2 = none := by
  unfold session.loop_then_clear at hok ⊢
  rcases hl : for_each_db_session call op s._db_sessions w with ⟨w1, _ | e⟩
  · simp
  · simp [hl] at hok

/-- Each finalize function is `loop_then_clear` with its own per-store call. -/
theorem finalize_eq (call : store_call H W E) (f : session_op) (s : session H) (w : W) :
    s.finalize call f w = s.loop_then_clear call f w := by
  cases f <;> rfl

/-- On a session without handles, `loop_then_clear` changes nothing. -/
theorem loop_then_clear_empty (call : store_call H W E) (op : session_op) (w : W) :
    (⟨[]⟩ : session H).loop_then_clear call op w = ⟨⟨[]⟩, w, none⟩ := rfl

end session_lemmas

/-- C1, counterexample: two sessions over the handles 0 and 1 on the
    instrumented primitive. On the first, `push()` has been called and the
    per-store push through handle 1 threw: the session keeps both handles, and
    destroying it afterwards calls undo through 0 and through 1, so destruction
    after a `push()` is not a no-op. On the second, the per-store undo through
    handle 0 throws: destroying the session calls undo through 0 only, and
    handle 1 is not undone. -/
theorem destroy_after_failed_push_undoes_every_handle :
    (session.push (log_call (fails_at session_op.push 1)) (⟨[0, 1]⟩ : session Nat) []).self
      = ⟨[0, 1]⟩ ∧
    (session.push (log_call (fails_at session_op.push 1)) (⟨[0, 1]⟩ : session Nat) []).world
      = [(session_op.push, 0), (session_op.push, 1)] ∧
    (session.push (log_call (fails_at session_op.push 1)) (⟨[0, 1]⟩ : session Nat) []).self.destroy
        (log_call (fails_at session_op.push 1))
        (session.push (log_call (fails_at session_op.push 1))
          (⟨[0, 1]⟩ : session Nat) []).world =
      ([(session_op.push, 0), (session_op.push, 1), (session_op.undo, 0),
        (session_op.undo, 1)], none) ∧
    (session.push (log_call (fails_at session_op.push 1)) (⟨[0, 1]⟩ : session Nat) []).self.destroy
        (log_call (fails_at session_op.push 1))
        (session.push (log_call (fails_at session_op.push 1))
          (⟨[0, 1]⟩ : session Nat) []).world ≠
      ((session.push (log_call (fails_at session_op.push 1))
          (⟨[0, 1]⟩ : session Nat) []).world, none) ∧
    session.destroy (log_call (fails_at session_op.undo 0)) (⟨[0, 1]⟩ : session Nat) [] =
      ([(session_op.undo, 0)], some ()) ∧
    (session_op.undo, 1) ∉
      (session.destroy (log_call (fails_at session_op.undo 0))
        (⟨[0, 1]⟩ : session Nat) []).1 := by
  decide

/-- C1, amended: destroying a session acts on the stores exactly as `undo()`
    does, for every handle sequence (the non-empty ones included): it leaves
    the stores in the state `undo()` leaves them in and ends with the exception
    `undo()` ends with. When no per-store undo throws, that state is the one
    reached by undoing through h1, ..., hn in this order, and on the
    instrumented primitive the calls made are undo on h1, ..., hn. After a
    `push()` or a `squash()` that has returned, destroying the session leaves
    the stores as they are, whatever the store primitive is, so it makes no
    call. -/
theorem destroy_is_undo_and_noop_after_push {H W E : Type} (call : store_call H W E)
    (s : session H) (w : W) :
    s.destroy call w = ((s.undo call w).world, (s.undo call w).thrown) ∧
    ((s.undo call w).thrown = none →
        (s.destroy call w).1 =
          s._db_sessions.foldl (fun w1 h => (call session_op.undo h w1).1) w) ∧
    (∀ (fails : session_op → H → Bool) (t : List (session_op × H)),
        (∀ h ∈ s._db_sessions, fails session_op.undo h = false) →
        s.destroy (log_call fails) t =
          (t ++ s._db_sessions.map (fun h => (session_op.undo, h)), none)) ∧
    ((s.push call w).thrown = none →
        (s.push call w).self.destroy call (s.push call w).world =
          ((s.push call w).world, none)) ∧
    ((s.squash call w).thrown = none →
        (s.squash call w).self.destroy call (s.squash call w).world =
          ((s.squash call w).world, none)) := by
  refine ⟨rfl, ?_, ?_, ?_, ?_⟩
  · intro hok
    have h := loop_then_clear_of_returns call session_op.undo s w hok
    have hd : (s.destroy call w).1 = (s.loop_then_clear call session_op.undo w).world := rfl
    rw [hd, h.1]
    exact for_each_returns_fold call session_op.undo s._db_sessions w h.2
  · intro fails t hok
    simp [session.destroy, session.undo, session.loop_then_clear,
      for_each_log_ok fails session_op.undo s._db_sessions t hok]
  · intro hok
    have h := loop_then_clear_of_returns call session_op.push s w hok
    simp only [session.push] at h ⊢
    rw [h.1]
    rfl
  · intro hok
    have h := loop_then_clear_of_returns call session_op.squash s w hok
    simp only [session.squash] at h ⊢
    rw [h.1]
    rfl

/-- Witness for the amended C1: a session over the handles 0 (shared), 1 (main), 2 (a shard)
    on the instrumented primitive on which no call throws. -/
theorem destroy_is_undo_and_noop_after_push_witness :
    (session.undo (log_call never_fails) (⟨[0, 1, 2]⟩ : session Nat) []).thrown = none ∧
    (session.push (log_call never_fails) (⟨[0, 1, 2]⟩ : session Nat) []).thrown = none ∧
    (session.squash (log_call never_fails) (⟨[0, 1, 2]⟩ : session Nat) []).thrown = none ∧
    (session.destroy (log_call never_fails) (⟨[0, 1, 2]⟩ : session Nat) []).1 =
      [0, 1, 2].foldl (fun w1 h => (log_call never_fails session_op.undo h w1).1) [] ∧
    session.destroy (log_call never_fails) (⟨[0, 1, 2]⟩ : session Nat) [] =
      ([(session_op.undo, 0), (session_op.undo, 1), (session_op.undo, 2)], none) ∧
    (session.push (log_call never_fails) (⟨[0, 1, 2]⟩ : session Nat) []).self.destroy
        (log_call never_fails)
        (session.push (log_call never_fails) (⟨[0, 1, 2]⟩ : session Nat) []).world =
      ([(session_op.push, 0), (session_op.push, 1), (session_op.push, 2)], none) ∧
    (session.squash (log_call never_fails) (⟨[0, 1, 2]⟩ : session Nat) []).self.destroy
        (log_call never_fails)
        (session.squash (log_call never_fails) (⟨[0, 1, 2]⟩ : session Nat) []).world =
      ([(session_op.squash, 0), (session_op.squash, 1), (session_op.squash, 2)], none) :=
  ⟨by decide, by decide, by decide,
   (destroy_is_undo_and_noop_after_push (log_call never_fails)
      (⟨[0, 1, 2]⟩ : session Nat) []).2.1 (by decide),
   by
    have h := (destroy_is_undo_and_noop_after_push (log_call never_fails)
      (⟨[0, 1, 2]⟩ : session Nat) []).2.2.1 never_fails [] (by decide)
    simpa using h,
   by
    have h := (destroy_is_undo_and_noop_after_push (log_call never_fails)
      (⟨[0, 1, 2]⟩ : session Nat) []).2.2.2.1 (by decide)
    rw [h]
    decide,
   by
    have h := (destroy_is_undo_and_noop_after_push (log_call never_fails)
      (⟨[0, 1, 2]⟩ : session Nat) []).2.2.2.2 (by decide)
    rw [h]
    decide⟩

/-- C2, counterexample: a session over the handles 0, 1, 2 on the
    instrumented primitive on which exactly the per-store push through handle 1
    throws. `push()` calls push through 0 and through 1 and ends with the
    exception: handle 2 is never called and the session keeps its three
    handles. -/
theorem push_stops_at_the_first_throwing_handle :
    (session.finalize (log_call (fails_at session_op.push 1)) session_op.push
        (⟨[0, 1, 2]⟩ : session Nat) []).thrown = some () ∧
    (session.finalize (log_call (fails_at session_op.push 1)) session_op.push
        (⟨[0, 1, 2]⟩ : session Nat) []).world =
      [(session_op.push, 0), (session_op.push, 1)] ∧
    (session_op.push, 2) ∉
      (session.finalize (log_call (fails_at session_op.push 1)) session_op.push
        (⟨[0, 1, 2]⟩ : session Nat) []).world ∧
    (session.finalize (log_call (fails_at session_op.push 1)) session_op.push
        (⟨[0, 1, 2]⟩ : session Nat) []).self._db_sessions = [0, 1, 2] ∧
    (session.finalize (log_call (fails_at session_op.push 1)) session_op.push
        (⟨[0, 1, 2]⟩ : session Nat) []).self._db_sessions ≠ [] := by
  decide

/-- C2, amended: for a session with handles h1, ..., hn, each of `push()`,
    `squash()` and `undo()` that returns (no per-store call throws) has called
    its own per-store operation through every handle once, in the order
    h1, ..., hn, has made no other per-store call, and leaves the session with
    an empty handle sequence. The first part reads the calls off the
    instrumented primitive, the second states the same for an arbitrary store
    primitive. -/
theorem finalize_calls_each_handle_once_in_order {H : Type} (f : session_op)
    (s : session H) :
    (∀ (fails : session_op → H → Bool) (t : List (session_op × H)),
        (s.finalize (log_call fails) f t).thrown = none →
        (s.finalize (log_call fails) f t).world = t ++ s._db_sessions.map (fun h => (f, h)) ∧
        (s.finalize (log_call fails) f t).self._db_sessions = []) ∧
    (∀ (W E : Type) (call : store_call H W E) (w : W),
        (s.finalize call f w).thrown = none →
        (s.finalize call f w).world =
          s._db_sessions.foldl (fun w1 h => (call f h w1).1) w ∧
        (s.finalize call f w).self._db_sessions = []) := by
  constructor
  · intro fails t hok
    rw [finalize_eq] at hok ⊢
    have h := loop_then_clear_of_returns (log_call fails) f s t hok
    have hall := for_each_log_returns fails f s._db_sessions t h.2
    rw [h.1, for_each_log_ok fails f s._db_sessions t hall]
    exact ⟨rfl, rfl⟩
  · intro W E call w hok
    rw [finalize_eq] at hok ⊢
    have h := loop_then_clear_of_returns call f s w hok
    rw [h.1]
    exact ⟨for_each_returns_fold call f s._db_sessions w h.2, rfl⟩

/-- Witness for the amended C2: `squash()` on a session over the handles 0 (shared), 1
    (main), 5 and 3 (two shards, in the order they were stored). -/
theorem finalize_calls_each_handle_once_in_order_witness :
    (session.finalize (log_call never_fails) session_op.squash
        (⟨[0, 1, 5, 3]⟩ : session Nat) []).thrown = none ∧
    (session.finalize (log_call never_fails) session_op.squash
        (⟨[0, 1, 5, 3]⟩ : session Nat) []).world =
      [(session_op.squash, 0), (session_op.squash, 1), (session_op.squash, 5),
        (session_op.squash, 3)] ∧
    (session.finalize (log_call never_fails) session_op.squash
        (⟨[0, 1, 5, 3]⟩ : session Nat) []).self._db_sessions = [] ∧
    (session.finalize (log_call never_fails) session_op.squash
        (⟨[0, 1, 5, 3]⟩ : session Nat) []).world =
      [0, 1, 5, 3].foldl (fun w1 h => (log_call never_fails session_op.squash h w1).1) [] :=
  ⟨by decide,
   by
    have h := (finalize_calls_each_handle_once_in_order session_op.squash
      (⟨[0, 1, 5, 3]⟩ : session Nat)).1 never_fails [] (by decide)
    simpa using h.1,
   ((finalize_calls_each_handle_once_in_order session_op.squash
      (⟨[0, 1, 5, 3]⟩ : session Nat)).1 never_fails [] (by decide)).2,
   ((finalize_calls_each_handle_once_in_order session_op.squash
      (⟨[0, 1, 5, 3]⟩ : session Nat)).2 _ _ (log_call never_fails) [] (by decide)).1⟩

/-- C3: once one of `push()`, `squash()`, `undo()` has returned on a session,
    any later `push()`, `squash()` or `undo()` on it, and any sequence of them,
    returns without a per-store call and leaves the session and the stores as
    they are, whatever the store primitive is; in particular calling the same
    function twice is the same as calling it once. -/
theorem finalize_after_finalize_is_noop {H W E : Type} (call : store_call H W E)
    (f g : session_op) (s : session H) (w : W)
    (hok : (s.finalize call f w).thrown = none) :
    (s.finalize call f w).self.finalize call g (s.finalize call f w).world =
      ⟨(s.finalize call f w).self, (s.finalize call f w).world, none⟩ ∧
    (s.finalize call f w).self.finalize call f (s.finalize call f w).world =
      s.finalize call f w ∧
    (∀ gs : List session_op,
      (s.finalize call f w).self.finalize_each call gs (s.finalize call f w).world =
        ⟨(s.finalize call f w).self, (s.finalize call f w).world, none⟩) := by
  have key : ∀ g1 : session_op,
      (s.finalize call f w).self.finalize call g1 (s.finalize call f w).world =
        ⟨(s.finalize call f w).self, (s.finalize call f w).world, none⟩ := by
    intro g1
    rw [finalize_eq call f] at hok ⊢
    have h := loop_then_clear_of_returns call f s w hok
    rw [h.1, finalize_eq call g1]
    rfl
  refine ⟨key g, ?_, ?_⟩
  · rw [key f]
    rw [finalize_eq call f] at hok ⊢
    rw [(loop_then_clear_of_returns call f s w hok).1]
  · intro gs
    induction gs with
    | nil => rfl
    | cons g1 rest ih =>
      simp only [session.finalize_each, key g1]
      exact ih

/-- Witness for C3: `undo()` after `push()`, and `squash()`, `undo()`, `push()`
    after `push()`, on the instrumented primitive; the log still holds the three
    push calls only. -/
theorem finalize_after_finalize_is_noop_witness :
    (session.finalize (log_call never_fails) session_op.push
        (⟨[0, 1, 2]⟩ : session Nat) []).thrown = none ∧
    (session.finalize (log_call never_fails) session_op.push
        (⟨[0, 1, 2]⟩ : session Nat) []).self.finalize (log_call never_fails) session_op.undo
        (session.finalize (log_call never_fails) session_op.push
          (⟨[0, 1, 2]⟩ : session Nat) []).world =
      ⟨⟨[]⟩, [(session_op.push, 0), (session_op.push, 1), (session_op.push, 2)], none⟩ ∧
    (session.finalize (log_call never_fails) session_op.push
        (⟨[0, 1, 2]⟩ : session Nat) []).self.finalize_each (log_call never_fails)
        [session_op.squash, session_op.undo, session_op.push]
        (session.finalize (log_call never_fails) session_op.push
          (⟨[0, 1, 2]⟩ : session Nat) []).world =
      ⟨⟨[]⟩, [(session_op.push, 0), (session_op.push, 1), (session_op.push, 2)], none⟩ :=
  ⟨by decide,
   by
    have h := (finalize_after_finalize_is_noop (log_call never_fails) session_op.push
      session_op.undo (⟨[0, 1, 2]⟩ : session Nat) [] (by decide)).1
    rw [h]
    decide,
   by
    have h := (finalize_after_finalize_is_noop (log_call never_fails) session_op.push
      session_op.undo (⟨[0, 1, 2]⟩ : session Nat) [] (by decide)).2.2
        [session_op.squash, session_op.undo, session_op.push]
    rw [h]
    decide⟩

/-- C4, counterexample: a session over the handles 0 and 1 on the instrumented
    primitive on which exactly the per-store push through handle 1 throws.
    `push()` reports the failure when the calls made are push through 0 and push
    through 1: the store behind handle 0 has been pushed, no undo has been
    called on it, and the session still holds both handles. -/
theorem push_failure_is_reported_without_rollback :
    (session.push (log_call (fails_at session_op.push 1)) (⟨[0, 1]⟩ : session Nat) []).thrown
      = some () ∧
    (session.push (log_call (fails_at session_op.push 1)) (⟨[0, 1]⟩ : session Nat) []).world
      = [(session_op.push, 0), (session_op.push, 1)] ∧
    (session_op.undo, 0) ∉
      (session.push (log_call (fails_at session_op.push 1)) (⟨[0, 1]⟩ : session Nat) []).world ∧
    (session.push (log_call (fails_at session_op.push 1)) (⟨[0, 1]⟩ : session Nat) []).self
      = ⟨[0, 1]⟩ := by
  decide

/-- C4, amended: for a session with handles h1, ..., hn in which the per-store
    push returns on h1, ..., h(k-1) and throws on hk, `push()` reports that
    failure at once: the stores are in the state the failed call left them in,
    the per-store calls made are push through h1, ..., hk in this order and no
    other (no rollback of the stores already pushed), and the session keeps its
    handle sequence. Destroying the session afterwards calls undo through every
    handle h1, ..., hn in order (as long as no per-store undo throws). -/
theorem push_failure_keeps_handles_and_destroy_undoes_all {H : Type}
    (pre : List H) (hk : H) (post : List H) :
    (∀ (W E : Type) (call : store_call H W E) (w w1 w2 : W) (e : E),
        for_each_db_session call session_op.push pre w = (w1, none) →
        call session_op.push hk w1 = (w2, some e) →
        session.push call ⟨pre ++ hk :: post⟩ w = ⟨⟨pre ++ hk :: post⟩, w2, some e⟩) ∧
    (∀ (fails : session_op → H → Bool) (t : List (session_op × H)),
        (∀ h ∈ pre, fails session_op.push h = false) →
        fails session_op.push hk = true →
        session.push (log_call fails) ⟨pre ++ hk :: post⟩ t =
          ⟨⟨pre ++ hk :: post⟩,
            t ++ (pre ++ [hk]).map (fun h => (session_op.push, h)), some ()⟩ ∧
        ((∀ h ∈ pre ++ hk :: post, fails session_op.undo h = false) →
          session.destroy (log_call fails) ⟨pre ++ hk :: post⟩
              (t ++ (pre ++ [hk]).map (fun h => (session_op.push, h))) =
            (t ++ (pre ++ [hk]).map (fun h => (session_op.push, h))
                ++ (pre ++ hk :: post).map (fun h => (session_op.undo, h)), none))) := by
  constructor
  · intro W E call w w1 w2 e hpre hcall
    simp [session.push, session.loop_then_clear, for_each_append, hpre,
      for_each_db_session, hcall]
  · intro fails t hpre hfail
    constructor
    · simp [session.push, session.loop_then_clear, for_each_append,
        for_each_log_ok fails session_op.push pre t hpre, for_each_db_session, log_call,
        hfail]
    · intro hundo
      simp [session.destroy, session.undo, session.loop_then_clear,
        for_each_log_ok fails session_op.undo (pre ++ hk :: post) _ hundo]

/-- Witness for the amended C4: handles 0 (shared), 1 (main), 2 (a shard), the
    per-store push through handle 1 throws. -/
theorem push_failure_keeps_handles_and_destroy_undoes_all_witness :
    session.push (log_call (fails_at session_op.push 1)) (⟨[0, 1, 2]⟩ : session Nat) [] =
      ⟨⟨[0, 1, 2]⟩, [(session_op.push, 0), (session_op.push, 1)], some ()⟩ ∧
    session.destroy (log_call (fails_at session_op.push 1)) (⟨[0, 1, 2]⟩ : session Nat)
        [(session_op.push, 0), (session_op.push, 1)] =
      ([(session_op.push, 0), (session_op.push, 1), (session_op.undo, 0),
        (session_op.undo, 1), (session_op.undo, 2)], none) := by
  have h := (push_failure_keeps_handles_and_destroy_undoes_all [0] 1 [2]).2
    (fails_at session_op.push 1) [] (by decide) (by decide)
  have g := (push_failure_keeps_handles_and_destroy_undoes_all [0] 1 [2]).1 _ _
    (log_call (fails_at session_op.push 1)) [] [(session_op.push, 0)]
    [(session_op.push, 0), (session_op.push, 1)] () (by decide) (by decide)
  exact ⟨by simpa using g, by simpa using h.2 (by decide)⟩

/-! ## Theorems: the manager -/

/-- A store accepts `set_revision` exactly when it is not in read-only mode and
    the value fits; the store it returns has the new revision and the old mode. -/
theorem database_set_revision_ok (v : Nat) (d d1 : database)
    (h : d.set_revision v = Except.ok d1) :
    d1 = { d with _revision := (v : Int) } ∧ d._read_only_mode = false := by
  unfold database.set_revision at h
  split at h
  · cases h
  · split at h
    · cases h
    · rename_i hro _
      cases h
      exact ⟨rfl, by simpa using hro⟩

/-- When every store of the map accepts the value, the loop over the shard
    stores returns and has set the revision of every entry, keys kept. -/
theorem set_revision_shards_ok (v : Nat) :
    ∀ l : List (Nat × database), (∀ db ∈ l, ∃ d1, db.2.set_revision v = Except.ok d1) →
      set_revision_shards v l =
        (l.map (fun db => (db.1, { db.2 with _revision := (v : Int) })), none)
  | [], _ => rfl
  | db :: rest, h => by
    obtain ⟨d1, hd1⟩ := h db (List.mem_cons_self db rest)
    have ih := set_revision_shards_ok v rest (fun x hx => h x (List.mem_cons_of_mem db hx))
    have hd := (database_set_revision_ok v db.2 d1 hd1).1
    simp [set_revision_shards, hd1, ih, hd]

/-- The loop over the shard stores changes neither the keys nor the modes. -/
theorem set_revision_shards_keys (v : Nat) :
    ∀ l : List (Nat × database),
      (set_revision_shards v l).1.map Prod.fst = l.map Prod.fst
  | [] => rfl
  | db :: rest => by
    have ih := set_revision_shards_keys v rest
    unfold set_revision_shards
    split
    · rfl
    · simp [ih]

/-- The manager call `set_revision` writes neither of the two read-only flags. -/
theorem set_revision_flags (v : Nat) (m : database_manager) :
    (m.set_revision v).self._read_only = m._read_only ∧
    (m.set_revision v).self._read_only_mode = m._read_only_mode := by
  by_cases hm : m._read_only_mode = true
  · simp [database_manager.set_revision, hm]
  · rcases h1 : m._shared_db.set_revision v with e | shared
    · simp [database_manager.set_revision, hm, h1]
    · rcases h2 : m._main_db.set_revision v with e | main
      · simp [database_manager.set_revision, hm, h1, h2]
      · simp [database_manager.set_revision, hm, h1, h2]

/-- No step writes the static flag `_read_only`. -/
theorem step_read_only (m : database_manager) (op : manager_op) :
    (m.step op)._read_only = m._read_only := by
  cases op with
  | set_read_only_mode => rfl
  | unset_read_only_mode =>
    simp only [database_manager.step, database_manager.unset_read_only_mode]
    split <;> rfl
  | set_revision v => exact (set_revision_flags v m).1

/-- A step that finds `_read_only_mode` set and leaves it cleared was taken
    with `_read_only` false. -/
theorem step_clears_only_when_not_static (m : database_manager) (op : manager_op)
    (hmode : m._read_only_mode = true) (hafter : (m.step op)._read_only_mode = false) :
    m._read_only = false := by
  cases op with
  | set_read_only_mode => simp [database_manager.step, database_manager.set_read_only_mode] at hafter
  | unset_read_only_mode =>
    simp only [database_manager.step, database_manager.unset_read_only_mode] at hafter
    split at hafter
    · rw [hmode] at hafter
      cases hafter
    · rename_i h
      simpa using h
  | set_revision v =>
    have h := (set_revision_flags v m).2
    simp only [database_manager.step] at hafter
    rw [h, hmode] at hafter
    cases hafter

/-- C5, evaluated: a manager that is not in read-only mode, with one shard
    store (name 1). After `set_read_only_mode()` the manager flag, the shared
    store and the main store are in read-only mode and the shard store is not:
    the loop over `_shard_db_map` has called `unset_read_only_mode()`. The same
    happens to a shard store that was in read-only mode before the call. -/
theorem set_read_only_mode_clears_the_shard_stores :
    database_manager.set_read_only_mode
        ⟨⟨0, false⟩, ⟨0, false⟩, [(1, ⟨0, false⟩)], false, false⟩ =
      ⟨⟨0, true⟩, ⟨0, true⟩, [(1, ⟨0, false⟩)], false, true⟩ ∧
    database_manager.set_read_only_mode
        ⟨⟨0, false⟩, ⟨0, false⟩, [(1, ⟨0, true⟩)], false, false⟩ =
      ⟨⟨0, true⟩, ⟨0, true⟩, [(1, ⟨0, false⟩)], false, true⟩ ∧
    ¬ (∀ d ∈ (database_manager.set_read_only_mode
          ⟨⟨0, false⟩, ⟨0, false⟩, [(1, ⟨0, false⟩)], false, false⟩).stores,
        d._read_only_mode = true) := by
  decide

/-- C6: `unset_read_only_mode()` throws if and only if `_read_only` is true; when
    it throws, the manager (flags and every store) is as before; when it
    returns, `_read_only_mode` is false, the shared store, the main store and
    every shard store have read-only mode cleared, and the registered shard
    names are the same. -/
theorem unset_read_only_mode_fails_iff_static (m : database_manager) :
    (m.unset_read_only_mode.thrown ≠ none ↔ m._read_only = true) ∧
    (m._read_only = true → m.unset_read_only_mode.self = m) ∧
    (m._read_only = false →
        m.unset_read_only_mode.self._read_only_mode = false ∧
        (∀ d ∈ m.unset_read_only_mode.self.stores, d._read_only_mode = false) ∧
        m.unset_read_only_mode.self._shard_db_map.map Prod.fst =
          m._shard_db_map.map Prod.fst) := by
  refine ⟨?_, ?_, ?_⟩
  · cases h : m._read_only <;> simp [database_manager.unset_read_only_mode, h]
  · intro h
    simp [database_manager.unset_read_only_mode, h]
  · intro h
    refine ⟨by simp [database_manager.unset_read_only_mode, h], ?_, ?_⟩
    · intro d hd
      simp only [database_manager.unset_read_only_mode, h, database_manager.stores,
        List.mem_cons, List.mem_map] at hd
      rcases hd with rfl | rfl | ⟨db, hdb, rfl⟩
      · rfl
      · rfl
      · simp only [Bool.false_eq_true, ↓reduceIte, List.mem_map] at hdb
        obtain ⟨db0, _, rfl⟩ := hdb
        rfl
    · simp [database_manager.unset_read_only_mode, h, Function.comp_def]

/-- Witness for C6: a manager opened statically read-only, and one that was not,
    each with a shard store in read-only mode. -/
theorem unset_read_only_mode_fails_iff_static_witness :
    (database_manager.unset_read_only_mode
        ⟨⟨3, true⟩, ⟨3, true⟩, [(1, ⟨3, true⟩)], true, true⟩).thrown =
      some "attempting to unset read_only_mode while database was opened as read only" ∧
    (database_manager.unset_read_only_mode
        ⟨⟨3, true⟩, ⟨3, true⟩, [(1, ⟨3, true⟩)], true, true⟩).self =
      ⟨⟨3, true⟩, ⟨3, true⟩, [(1, ⟨3, true⟩)], true, true⟩ ∧
    (database_manager.unset_read_only_mode
        ⟨⟨3, true⟩, ⟨3, true⟩, [(1, ⟨3, true⟩)], false, true⟩) =
      ⟨⟨⟨3, false⟩, ⟨3, false⟩, [(1, ⟨3, false⟩)], false, false⟩, none⟩ ∧
    (∀ d ∈ (database_manager.unset_read_only_mode
        ⟨⟨3, true⟩, ⟨3, true⟩, [(1, ⟨3, true⟩)], false, true⟩).self.stores,
      d._read_only_mode = false) :=
  ⟨by decide,
   (unset_read_only_mode_fails_iff_static
      ⟨⟨3, true⟩, ⟨3, true⟩, [(1, ⟨3, true⟩)], true, true⟩).2.1 (by decide),
   by decide,
   ((unset_read_only_mode_fails_iff_static
      ⟨⟨3, true⟩, ⟨3, true⟩, [(1, ⟨3, true⟩)], false, true⟩).2.2 (by decide)).2.1⟩

/-- When the manager is not in read-only mode and every store accepts the
    value, `set_revision` returns the manager with the revision of every store
    replaced. -/
theorem set_revision_of_accepted (m : database_manager) (v : Nat)
    (hmode : m._read_only_mode = false)
    (hstores : ∀ d ∈ m.stores, ∃ d1, d.set_revision v = Except.ok d1) :
    m.set_revision v =
      ⟨{ m with
          _shared_db := { m._shared_db with _revision := (v : Int) }
          _main_db := { m._main_db with _revision := (v : Int) }
          _shard_db_map :=
            m._shard_db_map.map (fun db => (db.1, { db.2 with _revision := (v : Int) })) },
        none⟩ := by
  obtain ⟨s1, hs1⟩ := hstores m._shared_db (by simp [database_manager.stores])
  obtain ⟨m1, hm1⟩ := hstores m._main_db (by simp [database_manager.stores])
  have hshards : ∀ db ∈ m._shard_db_map, ∃ d1, db.2.set_revision v = Except.ok d1 := by
    intro db hdb
    apply hstores
    simp only [database_manager.stores, List.mem_cons, List.mem_map]
    exact Or.inr (Or.inr ⟨db, hdb, rfl⟩)
  have e1 := (database_set_revision_ok v _ _ hs1).1
  have e2 := (database_set_revision_ok v _ _ hm1).1
  simp [database_manager.set_revision, hmode, hs1, hm1,
    set_revision_shards_ok v m._shard_db_map hshards, e1, e2]

/-- C7: `set_revision(v)` on a manager whose `_read_only_mode` is set throws
    and leaves the manager, hence every revision, as it was. When each per-store
    `set_revision(v)` succeeds, the call throws if and only if `_read_only_mode`
    is set, and when it is not set, afterwards the shared store, the main store
    and every shard store have revision v, `revision()` returns v,
    `shard_revision(name)` returns v for every registered name, and the
    registered names are the same. -/
theorem set_revision_fails_iff_read_only_mode (m : database_manager) (v : Nat) :
    (m._read_only_mode = true →
        (m.set_revision v).thrown ≠ none ∧ (m.set_revision v).self = m) ∧
    ((∀ d ∈ m.stores, ∃ d1, d.set_revision v = Except.ok d1) →
        ((m.set_revision v).thrown ≠ none ↔ m._read_only_mode = true) ∧
        (m._read_only_mode = false →
          (∀ d ∈ (m.set_revision v).self.stores, d.revision = (v : Int)) ∧
          (m.set_revision v).self.revision = (v : Int) ∧
          (∀ name ∈ m._shard_db_map.map Prod.fst,
            (m.set_revision v).self.shard_revision name = some (v : Int)) ∧
          (m.set_revision v).self._shard_db_map.map Prod.fst =
            m._shard_db_map.map Prod.fst)) := by
  constructor
  · intro hmode
    simp [database_manager.set_revision, hmode]
  · intro hstores
    constructor
    · cases hmode : m._read_only_mode
      · rw [set_revision_of_accepted m v hmode hstores]
        simp
      · simp [database_manager.set_revision, hmode]
    · intro hmode
      rw [set_revision_of_accepted m v hmode hstores]
      refine ⟨?_, rfl, ?_, ?_⟩
      · intro d hd
        simp only [database_manager.stores, List.mem_cons, List.mem_map] at hd
        rcases hd with rfl | rfl | ⟨db, hdb, rfl⟩
        · rfl
        · rfl
        · obtain ⟨db0, _, rfl⟩ := hdb
          rfl
      · intro name hname
        simp only [database_manager.shard_revision]
        generalize m._shard_db_map = l at hname
        induction l with
        | nil => simp at hname
        | cons db rest ih =>
          by_cases hk : name = db.1
          · subst hk
            simp [List.lookup, database.revision]
          · have hne : (name == db.1) = false := by simpa using hk
            have hrest : name ∈ rest.map Prod.fst := by
              simp only [List.map_cons, List.mem_cons] at hname
              rcases hname with h | h
              · exact absurd h hk
              · exact h
            simp only [List.map_cons, List.lookup, hne]
            exact ih hrest
      · simp [Function.comp_def]

/-- Witness for C7: a manager with the shard stores 4 and 9 at different
    revisions, set to revision 7; and a manager in read-only mode. -/
theorem set_revision_fails_iff_read_only_mode_witness :
    (database_manager.set_revision 7
        ⟨⟨1, false⟩, ⟨2, false⟩, [(4, ⟨3, false⟩), (9, ⟨5, false⟩)], false, false⟩).self =
      ⟨⟨7, false⟩, ⟨7, false⟩, [(4, ⟨7, false⟩), (9, ⟨7, false⟩)], false, false⟩ ∧
    (database_manager.set_revision 7
        ⟨⟨1, false⟩, ⟨2, false⟩, [(4, ⟨3, false⟩), (9, ⟨5, false⟩)], false, false⟩).self.revision
      = 7 ∧
    (∀ name ∈ [4, 9],
      (database_manager.set_revision 7
        ⟨⟨1, false⟩, ⟨2, false⟩, [(4, ⟨3, false⟩), (9, ⟨5, false⟩)], false, false⟩).self.shard_revision
          name = some 7) ∧
    (database_manager.set_revision 7
        ⟨⟨1, true⟩, ⟨2, true⟩, [(4, ⟨3, false⟩)], false, true⟩).self =
      ⟨⟨1, true⟩, ⟨2, true⟩, [(4, ⟨3, false⟩)], false, true⟩ := by
  have hstores : ∀ d ∈ database_manager.stores
      ⟨⟨1, false⟩, ⟨2, false⟩, [(4, ⟨3, false⟩), (9, ⟨5, false⟩)], false, false⟩,
      ∃ d1, d.set_revision 7 = Except.ok d1 := by
    intro d hd
    simp only [database_manager.stores, List.map_cons, List.map_nil, List.mem_cons,
      List.mem_singleton, List.not_mem_nil, or_false] at hd
    rcases hd with rfl | rfl | rfl | rfl <;> exact ⟨_, rfl⟩
  have h := ((set_revision_fails_iff_read_only_mode
    ⟨⟨1, false⟩, ⟨2, false⟩, [(4, ⟨3, false⟩), (9, ⟨5, false⟩)], false, false⟩ 7).2
      hstores).2 rfl
  have h2 := ((set_revision_fails_iff_read_only_mode
    ⟨⟨1, true⟩, ⟨2, true⟩, [(4, ⟨3, false⟩)], false, true⟩ 7).1 rfl).2
  exact ⟨by decide, h.2.1, h.2.2.1, h2⟩

/-- C8: along every finite sequence of `set_read_only_mode`,
    `unset_read_only_mode` and `set_revision` calls the static flag `_read_only`
    keeps its initial value; a step that finds `_read_only_mode` set and leaves
    it cleared is taken while `_read_only` is false; hence on a manager opened
    statically read-only, `_read_only_mode`, once set, is set after every such
    sequence. A call rejected by its guard (`unset_read_only_mode` with
    `_read_only` set, `set_revision` with `_read_only_mode` set) leaves the
    manager as it is. -/
theorem read_only_mode_cleared_only_when_not_static :
    (∀ (m : database_manager) (ops : List manager_op), (m.run ops)._read_only = m._read_only) ∧
    (∀ (m : database_manager) (op : manager_op),
        m._read_only_mode = true → (m.step op)._read_only_mode = false →
          m._read_only = false) ∧
    (∀ (m : database_manager) (ops : List manager_op),
        m._read_only = true → m._read_only_mode = true →
          (m.run ops)._read_only_mode = true) ∧
    (∀ m : database_manager, m._read_only = true →
        m.step manager_op.unset_read_only_mode = m) ∧
    (∀ (m : database_manager) (v : Nat), m._read_only_mode = true →
        m.step (manager_op.set_revision v) = m) := by
  have hstatic : ∀ (ops : List manager_op) (m : database_manager),
      (m.run ops)._read_only = m._read_only := by
    intro ops
    induction ops with
    | nil => intro m; rfl
    | cons op rest ih =>
      intro m
      have h := ih (m.step op)
      simp only [database_manager.run, List.foldl] at h ⊢
      rw [h, step_read_only]
  refine ⟨fun m ops => hstatic ops m, step_clears_only_when_not_static, ?_, ?_, ?_⟩
  · intro m ops
    induction ops generalizing m with
    | nil => intro _ hmode; exact hmode
    | cons op rest ih =>
      intro hro hmode
      have hro1 : (m.step op)._read_only = true := by rw [step_read_only, hro]
      have hmode1 : (m.step op)._read_only_mode = true := by
        cases hstep : (m.step op)._read_only_mode
        · have := step_clears_only_when_not_static m op hmode hstep
          rw [hro] at this
          cases this
        · rfl
      exact ih (m.step op) hro1 hmode1
  · intro m hro
    simp [database_manager.step, database_manager.unset_read_only_mode, hro]
  · intro m v hmode
    simp [database_manager.step, database_manager.set_revision, hmode]

/-- Witness for C8: a manager opened statically read-only and in read-only
    mode, run through unset, set_revision, set, unset; and a manager in
    read-only mode whose `unset_read_only_mode` step clears the mode. -/
theorem read_only_mode_cleared_only_when_not_static_witness :
    (database_manager.run ⟨⟨0, true⟩, ⟨0, true⟩, [(1, ⟨0, true⟩)], true, true⟩
        [manager_op.unset_read_only_mode, manager_op.set_revision 5,
          manager_op.set_read_only_mode, manager_op.unset_read_only_mode])._read_only_mode
      = true ∧
    (database_manager.run ⟨⟨0, true⟩, ⟨0, true⟩, [(1, ⟨0, true⟩)], true, true⟩
        [manager_op.unset_read_only_mode, manager_op.set_revision 5,
          manager_op.set_read_only_mode, manager_op.unset_read_only_mode])._read_only
      = true ∧
    (database_manager.step ⟨⟨0, true⟩, ⟨0, true⟩, [(1, ⟨0, false⟩)], false, true⟩
        manager_op.unset_read_only_mode)._read_only_mode = false ∧
    (⟨⟨0, true⟩, ⟨0, true⟩, [(1, ⟨0, false⟩)], false, true⟩ : database_manager)._read_only
      = false ∧
    database_manager.step ⟨⟨0, true⟩, ⟨0, true⟩, [(1, ⟨0, true⟩)], true, true⟩
        manager_op.unset_read_only_mode =
      ⟨⟨0, true⟩, ⟨0, true⟩, [(1, ⟨0, true⟩)], true, true⟩ ∧
    database_manager.step ⟨⟨0, false⟩, ⟨0, false⟩, [(1, ⟨0, false⟩)], false, true⟩
        (manager_op.set_revision 5) =
      ⟨⟨0, false⟩, ⟨0, false⟩, [(1, ⟨0, false⟩)], false, true⟩ :=
  ⟨read_only_mode_cleared_only_when_not_static.2.2.1
      ⟨⟨0, true⟩, ⟨0, true⟩, [(1, ⟨0, true⟩)], true, true⟩ _ rfl rfl,
   by decide, by decide,
   read_only_mode_cleared_only_when_not_static.2.1
      ⟨⟨0, true⟩, ⟨0, true⟩, [(1, ⟨0, false⟩)], false, true⟩
      manager_op.unset_read_only_mode rfl (by decide),
   read_only_mode_cleared_only_when_not_static.2.2.2.1
      ⟨⟨0, true⟩, ⟨0, true⟩, [(1, ⟨0, true⟩)], true, true⟩ rfl,
   read_only_mode_cleared_only_when_not_static.2.2.2.2
      ⟨⟨0, false⟩, ⟨0, false⟩, [(1, ⟨0, false⟩)], false, true⟩ 5 rfl⟩

end eosio.chain
